import Mathlib

set_option maxHeartbeats 1000000

/-! Verification of the filesystem MCP server core: the sandbox path
    validator (`resolveAndValidatePath` in the configuration module) and the
    sequential multi-edit text engine (`edit_file` tool handler), together
    with the storage effects of the other tool handlers the claims mention.

    Paths are modelled lexically, mirroring Node's POSIX `path.resolve` and
    `path.relative`: a resolved absolute path is a list of segments (each a
    list of characters), obtained by splitting on slash characters and
    collapsing dot and dot-dot segments without touching any filesystem.
    JavaScript strings are modelled by Lean `String` (code-point based;
    the sources never rely on surrogate-level lengths). -/

/-- A path segment: the run of characters between two slashes. -/
abbrev Seg := List Char

/-- Split a character list on slash characters, dropping empty segments,
    as Node's path normalization does. `acc` holds the current segment in
    reverse. -/
def splitSegsAux : List Char → List Char → List Seg
  | [], acc => if acc = [] then [] else [acc.reverse]
  | c :: rest, acc =>
    if c = '/' then
      if acc = [] then splitSegsAux rest []
      else acc.reverse :: splitSegsAux rest []
    else splitSegsAux rest (c :: acc)

def splitSegs (cs : List Char) : List Seg := splitSegsAux cs []

/-- One step of absolute-path normalization: `.` and empty segments are
    dropped, `..` pops the previous segment (and is dropped at the root),
    anything else is kept. -/
def normStep (acc : List Seg) (seg : Seg) : List Seg :=
  if seg = [] ∨ seg = ['.'] then acc
  else if seg = ['.', '.'] then acc.dropLast
  else acc ++ [seg]

/-- Collapse `.` and `..` segments of an absolute path, as Node's
    normalization does. -/
def normSegs (l : List Seg) : List Seg := l.foldl normStep []

/-- Does the string denote an absolute POSIX path (leading slash)? -/
def isAbsoluteStr (s : String) : Bool :=
  match s.data with
  | [] => false
  | c :: _ => c == '/'

/-- The hard-coded project root of the configuration module. -/
def projectRoot : String := "/home/project"

/-- `path.resolve(projectRoot, userPath)`, as a segment list: an absolute
    `userPath` stands alone, a relative one is appended to the root, then
    both are normalized lexically. -/
def resolveSegs (userPath : String) : List Seg :=
  if isAbsoluteStr userPath then normSegs (splitSegs userPath.data)
  else normSegs (splitSegs projectRoot.data ++ splitSegs userPath.data)

/-- Join segments with slashes (no leading slash). -/
def joinSegs : List Seg → List Char
  | [] => []
  | [s] => s
  | s :: rest => s ++ '/' :: joinSegs rest

/-- Render an absolute path from its segments. -/
def joinAbs (segs : List Seg) : String := ⟨'/' :: joinSegs segs⟩

/-- `path.relative(fromSegs, toSegs)` at segment level: drop the common
    leading segments, then one `..` per remaining source segment followed by
    the remaining target segments. -/
def relSegs : List Seg → List Seg → List Seg
  | [], t => t
  | a :: f', t =>
    match t with
    | [] => (a :: f').map (fun _ => ['.', '.'])
    | b :: t' =>
      if a = b then relSegs f' t'
      else List.replicate (f'.length + 1) ['.', '.'] ++ b :: t'

/-- Segments of an allowed directory entry (an absolute path string). -/
def dirSegs (d : String) : List Seg := normSegs (splitSegs d.data)

/-- Does a rendered relative path begin with a slash? (`path.isAbsolute`). -/
def isAbsSegStr : List Char → Bool
  | [] => false
  | c :: _ => c == '/'

/-- The containment test the validator runs for one allowed directory `d`:
    the rendered `path.relative(d, resolved)` must not start with the two
    characters `..` and must not be absolute. -/
def isAllowedDir (allowedDir : String) (resolved : List Seg) : Bool :=
  let rel := joinSegs (relSegs (dirSegs allowedDir) resolved)
  !(['.', '.'].isPrefixOf rel) && !(isAbsSegStr rel)

/-- The two error shapes the validator throws. -/
inductive PathError where
  | invalidPath
  | accessDenied (userPath : String)
deriving DecidableEq

/-- The exact message text of each validator error. -/
def errorMessage : PathError → String
  | .invalidPath => "Invalid path provided: Path cannot be empty."
  | .accessDenied p => "Access denied: Path '" ++ p ++ "' is outside the allowed directories."

/-- Is the string empty after trimming, i.e. entirely whitespace?
    (`!userPath.trim()` in the source.) -/
def allWhitespace (cs : List Char) : Bool := cs.all (fun c => c.isWhitespace)

/-- `resolveAndValidatePath`, parameterized by the allowed-directory list
    the module closes over. -/
def resolveAndValidatePathIn (allowedDirs : List String) (userPath : String) :
    Except PathError String :=
  if allWhitespace userPath.data then .error .invalidPath
  else
    let resolved := resolveSegs userPath
    if allowedDirs.any (fun d => isAllowedDir d resolved) then .ok (joinAbs resolved)
    else .error (.accessDenied userPath)

/-- The configured allowed directories:
    `[path.resolve(projectRoot, 'data')] = ['/home/project/data']`. -/
def ALLOWED_DIRS : List String := ["/home/project/data"]

/-- The validator as the source exports it, closed over `ALLOWED_DIRS`. -/
def resolveAndValidatePath (userPath : String) : Except PathError String :=
  resolveAndValidatePathIn ALLOWED_DIRS userPath

/-- Is a resolved path equal to or below some allowed directory? -/
def withinAllowed (segs : List Seg) : Bool :=
  ALLOWED_DIRS.any (fun d => (dirSegs d).isPrefixOf segs)

/-- First-segment guard used to state when the containment test accepts a
    descendant: the first segment below the allowed directory must not begin
    with the two characters `..`. -/
def headOk : List Seg → Bool
  | [] => true
  | a :: _ => !(['.', '.'].isPrefixOf a)

/-- Structural-fuel scanner for literal `String.prototype.replaceAll` with a
    non-empty search pattern: leftmost-first, non-overlapping, the
    replacement text is not rescanned. Fuel `s.length` suffices because each
    step consumes at least one character of `s`. -/
def replGoF (pat rep : List Char) : Nat → List Char → List Char
  | 0, s => s
  | _ + 1, [] => []
  | fuel + 1, c :: rest =>
    if pat.isPrefixOf (c :: rest) then
      rep ++ replGoF pat rep fuel ((c :: rest).drop pat.length)
    else c :: replGoF pat rep fuel rest

/-- JavaScript `s.replaceAll(pat, rep)` on character lists. An empty pattern
    matches at every position boundary, so `rep` is inserted before every
    character and at the end. -/
def replaceAllChars (s pat rep : List Char) : List Char :=
  match pat with
  | [] => rep ++ s.flatMap (fun c => c :: rep)
  | _ :: _ => replGoF pat rep s.length s

/-- JavaScript `s.replaceAll(pat, rep)` on strings. -/
def strReplaceAll (s pat rep : String) : String :=
  ⟨replaceAllChars s.data pat.data rep.data⟩

/-- JavaScript `s.includes(pat)`: some suffix of `s` starts with `pat`. -/
def strIncludes (s pat : String) : Bool :=
  s.data.tails.any (fun t => pat.data.isPrefixOf t)

/-- An edit operation of the `edit_file` tool: search text and replacement
    text (`oldText` / `newText` in the request schema). -/
structure EditOp where
  oldText : String
  newText : String
deriving DecidableEq

/-- Mutable state of the handler's edit loop: the working content, the
    `changesMade` flag and the accumulated `appliedEditsInfo` lines. -/
structure EditLoopState where
  modifiedContent : String
  changesMade : Bool
  appliedEditsInfo : List String
deriving DecidableEq

/-- Info line pushed by the branch that sets `changesMade`. -/
def replacedMsg (e : EditOp) : String :=
  "Replaced all occurrences of \"" ++ e.oldText ++ "\" with \"" ++ e.newText ++ "\"."

/-- Info line pushed when the search text was present initially but is gone
    from the working content. -/
def priorEditsMsg (e : EditOp) : String :=
  "Note: \"" ++ e.oldText ++ "\" was present initially but removed by prior edits."

/-- Info line pushed when the search text is not found. -/
def skippedMsg (e : EditOp) : String :=
  "Skipped: \"" ++ e.oldText ++ "\" not found."

/-- One iteration of the `edit_file` loop, translated branch for branch from
    the handler. `currentContent` is the content read from the file; the
    source never reassigns it inside the loop. `modifiedContent` is
    reassigned before any branching, so it advances even on branches that
    push no info line. -/
def processEdit (currentContent : String) (st : EditLoopState) (edit : EditOp) :
    EditLoopState :=
  let originalLength := st.modifiedContent.length
  let modifiedContent := strReplaceAll st.modifiedContent edit.oldText edit.newText
  if (modifiedContent.length != originalLength) || strIncludes currentContent edit.oldText then
    if modifiedContent != strReplaceAll currentContent edit.oldText edit.newText then
      ⟨modifiedContent, true, st.appliedEditsInfo ++ [replacedMsg edit]⟩
    else if !(strIncludes modifiedContent edit.oldText) && strIncludes currentContent edit.oldText then
      ⟨modifiedContent, st.changesMade, st.appliedEditsInfo ++ [priorEditsMsg edit]⟩
    else if !(strIncludes currentContent edit.oldText) then
      ⟨modifiedContent, st.changesMade, st.appliedEditsInfo ++ [skippedMsg edit]⟩
    else
      ⟨modifiedContent, st.changesMade, st.appliedEditsInfo⟩
  else
    ⟨modifiedContent, st.changesMade, st.appliedEditsInfo ++ [skippedMsg edit]⟩

/-- The whole edit loop over the ordered edit list. -/
def runEditLoop (currentContent : String) (edits : List EditOp) : EditLoopState :=
  edits.foldl (processEdit currentContent) ⟨currentContent, false, []⟩

/-- Observable outcome of one `edit_file` call: the response text and the
    write performed on storage, if any, as (file path, new content). -/
structure EditFileEffect where
  response : String
  written : Option (String × String)
deriving DecidableEq

/-- The `edit_file` handler after a successful read, translated from the
    dryRun / changesMade branching. A write happens only in the branch that
    calls `fs.writeFile`. -/
def editFileCore (filePath userPath original : String) (edits : List EditOp)
    (dryRun : Bool) : EditFileEffect :=
  let st := runEditLoop original edits
  let info := String.intercalate "\n" st.appliedEditsInfo
  if dryRun then
    if st.changesMade then
      ⟨"Dry run for '" ++ userPath ++ "'. Changes would be applied.\n\nApplied Edits Info:\n" ++
        info ++ "\n\n--- Potential New Content ---\n" ++ st.modifiedContent, none⟩
    else
      ⟨"Dry run for '" ++ userPath ++
        "': No changes would be made based on the provided edits.\n\nApplied Edits Info:\n" ++ info,
        none⟩
  else
    if st.changesMade then
      ⟨"Successfully edited '" ++ userPath ++ "'.\n\nApplied Edits Info:\n" ++ info,
        some (filePath, st.modifiedContent)⟩
    else
      ⟨"No changes applied to '" ++ userPath ++
        "' as edits resulted in no modifications.\n\nApplied Edits Info:\n" ++ info, none⟩

/-- The full `edit_file` handler: validate the path, read the file from the
    store (a partial map from absolute paths to contents), then run the
    core. Validation or read failure yields an error response and no
    write. -/
def edit_file (store : String → Option String) (userPath : String)
    (edits : List EditOp) (dryRun : Bool) : EditFileEffect :=
  match resolveAndValidatePath userPath with
  | .error e => ⟨"Error: Invalid path '" ++ userPath ++ "'. " ++ errorMessage e, none⟩
  | .ok filePath =>
    match store filePath with
    | none => ⟨"Error: File not found at '" ++ userPath ++ "'.", none⟩
    | some content => editFileCore filePath userPath content edits dryRun

/-- Apply a recorded write effect to a store. -/
def storeUpdate (store : String → Option String) (w : Option (String × String)) :
    String → Option String :=
  match w with
  | none => store
  | some (fp, c) => fun q => if q = fp then some c else store q

/-- One output block of `read_multiple_files` for one requested path,
    translated from the per-path closure plus the rendering step: success
    and failure use the same delimiters, and a failure of one path is caught
    inside its own closure. -/
def rmfBlock (store : String → Option String) (userPath : String) : String :=
  match resolveAndValidatePath userPath with
  | .error e =>
      "--- File: " ++ userPath ++ " ---\nError: " ++ errorMessage e ++
        "\n--- End: " ++ userPath ++ " ---"
  | .ok filePath =>
    match store filePath with
    | none =>
        "--- File: " ++ userPath ++ " ---\nError: ENOENT: no such file or directory, open '" ++
          filePath ++ "'\n--- End: " ++ userPath ++ " ---"
    | some content =>
        "--- File: " ++ userPath ++ " ---\n" ++ content ++ "\n--- End: " ++ userPath ++ " ---"

/-- The ordered list of per-path blocks. -/
def rmfBlocks (store : String → Option String) (paths : List String) : List String :=
  paths.map (rmfBlock store)

/-- The `read_multiple_files` handler output: all blocks joined in request
    order. -/
def read_multiple_files (store : String → Option String) (paths : List String) : String :=
  String.intercalate "\n\n" (rmfBlocks store paths)

/-- Index search of Node's POSIX `path.dirname`: scan from the end down to
    index 1, skipping trailing slashes, and return the index of the slash
    that ends the parent part, if any. -/
def dirnameFind (cs : List Char) : Nat → Bool → Option Nat
  | 0, _ => none
  | i + 1, matchedSlash =>
    if cs.getD (i + 1) ' ' = '/' then
      if matchedSlash then dirnameFind cs i matchedSlash else some (i + 1)
    else dirnameFind cs i false

/-- Node's POSIX `path.dirname`, translated from its index-based source. -/
def dirnamePosix (s : String) : String :=
  match s.data with
  | [] => "."
  | c0 :: _ =>
    let cs := s.data
    let hasRoot := c0 = '/'
    match dirnameFind cs (cs.length - 1) true with
    | none => if hasRoot then "/" else "."
    | some e => if hasRoot ∧ e = 1 then "//" else ⟨cs.take e⟩

/-- The `create_directory` handler's storage effect and response. The first
    component is the absolute path passed to `fs.mkdir`, if any. On an
    access-denied validation failure the handler falls back to validating
    `dirname(userPath) + '/dummy'` and, when that passes, calls `fs.mkdir`
    on `path.resolve(projectRoot, userPath)` without re-validating it. -/
def create_directory (userPath : String) : Option String × String :=
  match resolveAndValidatePath userPath with
  | .ok dirPath => (some dirPath, "Directory '" ++ userPath ++ "' ensured.")
  | .error .invalidPath =>
      (none, "Error: Failed to create directory '" ++ userPath ++ "'. " ++
        errorMessage .invalidPath)
  | .error (.accessDenied _) =>
      let parentUserPath := dirnamePosix userPath
      let parentPath := if parentUserPath = "." then "/home/project" else parentUserPath
      match resolveAndValidatePath (parentPath ++ "/dummy") with
      | .ok _ =>
          (some (joinAbs (resolveSegs userPath)), "Directory '" ++ userPath ++ "' ensured.")
      | .error pe =>
          (none, "Error: Failed to create directory '" ++ userPath ++
            "'. Cannot create directories outside allowed paths. " ++ errorMessage pe)

/-! ## Helper lemmas about the lexical path model -/

/-- `List.isPrefixOf` agrees with the prefix order on segment lists. -/
theorem isPrefixOf_eq_true : ∀ (l₁ l₂ : List Seg), l₁.isPrefixOf l₂ = true ↔ l₁ <+: l₂
  | [], l₂ => by simp [List.isPrefixOf]
  | a :: as, [] => by simp [List.isPrefixOf]
  | a :: as, b :: bs => by
    simp [List.isPrefixOf, isPrefixOf_eq_true as bs, List.cons_prefix_cons]

/-- Joining a segment list that starts with a dot-dot segment yields a
    character list that starts with the two characters `..`. -/
theorem dd_isPrefixOf_join (rest : List Seg) :
    ['.', '.'].isPrefixOf (joinSegs (['.', '.'] :: rest)) = true := by
  cases rest <;> rfl

/-- When `f` is not a prefix of `t`, the rendered relative path from `f` to
    `t` starts with `..`. -/
theorem relSegs_outside : ∀ (f t : List Seg), ¬ f <+: t →
    ['.', '.'].isPrefixOf (joinSegs (relSegs f t)) = true
  | [], t, h => absurd ⟨t, rfl⟩ h
  | a :: f', [], _ => by
      simp only [relSegs, List.map]
      exact dd_isPrefixOf_join _
  | a :: f', b :: t', h => by
      simp only [relSegs]
      by_cases hab : a = b
      · subst hab
        rw [if_pos rfl]
        exact relSegs_outside f' t' fun hp => h (List.cons_prefix_cons.mpr ⟨rfl, hp⟩)
      · rw [if_neg hab, List.replicate_succ, List.cons_append]
        exact dd_isPrefixOf_join _

/-- When `f` is a prefix of `t`, the relative segments are the remainder of
    `t` below `f`. -/
theorem relSegs_of_le : ∀ (f t : List Seg), f <+: t → relSegs f t = t.drop f.length
  | [], _, _ => by rfl
  | _ :: _, [], h => absurd h (by simp)
  | a :: f', b :: t', h => by
      obtain ⟨hab, h'⟩ := List.cons_prefix_cons.mp h
      subst hab
      simp only [relSegs, if_pos rfl, List.length_cons, List.drop_succ_cons]
      exact relSegs_of_le f' t' h'

/-- Soundness of the containment test: acceptance implies the allowed
    directory's segments lead the resolved path's segments. -/
theorem isAllowedDir_within (d : String) (resolved : List Seg)
    (h : isAllowedDir d resolved = true) : dirSegs d <+: resolved := by
  by_contra hn
  have hdd := relSegs_outside (dirSegs d) resolved hn
  simp only [isAllowedDir, Bool.and_eq_true, Bool.not_eq_true'] at h
  rw [h.1] at hdd
  cases hdd

/-- Segments produced by splitting contain no slash and are non-empty. -/
theorem splitSegsAux_wf : ∀ (cs acc : List Char), (∀ c ∈ acc, c ≠ '/') →
    ∀ s ∈ splitSegsAux cs acc, s ≠ [] ∧ ∀ c ∈ s, c ≠ '/'
  | [], acc, hacc => by
      intro s hs
      simp only [splitSegsAux] at hs
      split at hs
      · simp at hs
      · next hne =>
        simp only [List.mem_singleton] at hs
        subst hs
        refine ⟨by simpa [List.reverse_eq_nil_iff] using hne, ?_⟩
        intro c hc
        exact hacc c (List.mem_reverse.mp hc)
  | c :: rest, acc, hacc => by
      intro s hs
      simp only [splitSegsAux] at hs
      split at hs
      · split at hs
        · exact splitSegsAux_wf rest [] (by simp) s hs
        · next hne =>
          rcases List.mem_cons.mp hs with h1 | h2
          · subst h1
            refine ⟨by simpa [List.reverse_eq_nil_iff] using hne, ?_⟩
            intro x hx
            exact hacc x (List.mem_reverse.mp hx)
          · exact splitSegsAux_wf rest [] (by simp) s h2
      · next hslash =>
        refine splitSegsAux_wf rest (c :: acc) ?_ s hs
        intro x hx
        rcases List.mem_cons.mp hx with h1 | h2
        · subst h1; exact hslash
        · exact hacc x h2

/-- Normalization only keeps segments of its input. -/
theorem foldl_normStep_mem : ∀ (l acc : List Seg) (s : Seg),
    s ∈ l.foldl normStep acc → s ∈ acc ∨ s ∈ l
  | [], _, _, h => Or.inl h
  | seg :: l, acc, s, h => by
      rcases foldl_normStep_mem l (normStep acc seg) s h with h1 | h2
      · unfold normStep at h1
        split at h1
        · exact Or.inl h1
        · split at h1
          · exact Or.inl (List.dropLast_subset _ h1)
          · rcases List.mem_append.mp h1 with ha | hb
            · exact Or.inl ha
            · simp only [List.mem_singleton] at hb
              subst hb
              exact Or.inr (List.mem_cons_self _ _)
      · exact Or.inr (List.mem_cons_of_mem _ h2)

theorem normSegs_mem (l : List Seg) (s : Seg) (h : s ∈ normSegs l) : s ∈ l := by
  rcases foldl_normStep_mem l [] s h with h1 | h2
  · cases h1
  · exact h2

/-- Every segment of a resolved path is non-empty and slash-free. -/
theorem resolveSegs_wf (p : String) (s : Seg) (h : s ∈ resolveSegs p) :
    s ≠ [] ∧ ∀ c ∈ s, c ≠ '/' := by
  unfold resolveSegs at h
  split at h
  · exact splitSegsAux_wf p.data [] (by simp) s (normSegs_mem _ _ h)
  · rcases List.mem_append.mp (normSegs_mem _ _ h) with h1 | h2
    · exact splitSegsAux_wf projectRoot.data [] (by simp) s h1
    · exact splitSegsAux_wf p.data [] (by simp) s h2

/-- Rendering a remainder whose first segment is well-formed and does not
    itself start with `..` yields a relative path that passes both halves of
    the containment test. -/
theorem join_head_ok (a : Seg) (rest : List Seg) (ha : a ≠ [])
    (hslash : ∀ c ∈ a, c ≠ '/') (hdd : ['.', '.'].isPrefixOf a = false) :
    ['.', '.'].isPrefixOf (joinSegs (a :: rest)) = false ∧
      isAbsSegStr (joinSegs (a :: rest)) = false := by
  obtain ⟨c, a', rfl⟩ : ∃ c a', a = c :: a' := by
    cases a with
    | nil => exact absurd rfl ha
    | cons c a' => exact ⟨c, a', rfl⟩
  have hc : c ≠ '/' := hslash c (List.mem_cons_self _ _)
  constructor
  · cases rest with
    | nil =>
      simpa [joinSegs] using hdd
    | cons r rs =>
      cases a' with
      | nil =>
        simp [joinSegs, List.isPrefixOf]
      | cons c₂ a'' =>
        simp only [List.isPrefixOf, Bool.and_eq_false_iff] at hdd ⊢
        simpa [joinSegs] using hdd
  · cases rest with
    | nil =>
      simp [joinSegs, isAbsSegStr, beq_eq_false_iff_ne, hc]
    | cons r rs =>
      simp [joinSegs, isAbsSegStr, beq_eq_false_iff_ne, hc]

/-- Completeness of the containment test: when the allowed directory's
    segments lead the resolved path and the first segment below it does not
    start with `..`, the test accepts. -/
theorem isAllowedDir_of_within (d p : String)
    (hpre : (dirSegs d).isPrefixOf (resolveSegs p) = true)
    (hh : headOk ((resolveSegs p).drop (dirSegs d).length) = true) :
    isAllowedDir d (resolveSegs p) = true := by
  have hle : dirSegs d <+: resolveSegs p := (isPrefixOf_eq_true _ _).mp hpre
  have hrel : relSegs (dirSegs d) (resolveSegs p) = (resolveSegs p).drop (dirSegs d).length :=
    relSegs_of_le _ _ hle
  simp only [isAllowedDir, hrel]
  cases hrem : (resolveSegs p).drop (dirSegs d).length with
  | nil => rfl
  | cons a rest =>
    rw [hrem] at hh
    have hmem : a ∈ resolveSegs p :=
      List.drop_subset _ _ (hrem ▸ List.mem_cons_self a rest)
    obtain ⟨hne, hsl⟩ := resolveSegs_wf p a hmem
    have hdd : ['.', '.'].isPrefixOf a = false := by
      simpa [headOk] using hh
    obtain ⟨h1, h2⟩ := join_head_ok a rest hne hsl hdd
    simp [h1, h2]

/-! ## Claim theorems: sandbox validator -/

/-- C1 (counterexample to the claim as stated): the single-space path
    resolves to `/home/project/ `, which is neither an allowed directory nor
    a descendant of one, yet the validator fails with the invalid-path
    error, not the access-denied error. -/
theorem C1_counterexample :
    resolveAndValidatePath " " = .error .invalidPath ∧
    withinAllowed (resolveSegs " ") = false ∧
    PathError.invalidPath ≠ PathError.accessDenied " " := by
  refine ⟨rfl, by decide, by decide⟩

/-- C1 (amended): for every allowed-directory list and every path whose
    characters are not all whitespace, if the lexical resolution against the
    project root is neither an allowed directory nor a descendant of one,
    validation fails with the access-denied error carrying the original
    user path; and whenever validation succeeds, the returned string is the
    resolved path and that path lies at or below some allowed directory. -/
theorem C1_amended (dirs : List String) (p : String) :
    ((allWhitespace p.data = false) →
      (dirs.all (fun d => !((dirSegs d).isPrefixOf (resolveSegs p))) = true) →
      resolveAndValidatePathIn dirs p = .error (.accessDenied p)) ∧
    (∀ r, resolveAndValidatePathIn dirs p = .ok r →
      dirs.any (fun d => (dirSegs d).isPrefixOf (resolveSegs p)) = true ∧
      r = joinAbs (resolveSegs p)) := by
  constructor
  · intro hws hall
    unfold resolveAndValidatePathIn
    rw [hws]
    have hany : dirs.any (fun d => isAllowedDir d (resolveSegs p)) = false := by
      rw [List.any_eq_false]
      intro d hd hAllowed
      have hle := isAllowedDir_within d (resolveSegs p) hAllowed
      have hnp := List.all_eq_true.mp hall d hd
      rw [Bool.not_eq_true', (isPrefixOf_eq_true _ _).mpr hle] at hnp
      cases hnp
    simp [hany]
  · intro r hr
    unfold resolveAndValidatePathIn at hr
    split at hr
    · cases hr
    · dsimp only at hr
      split at hr
      · next hany =>
        cases hr
        refine ⟨?_, rfl⟩
        rw [List.any_eq_true] at hany ⊢
        obtain ⟨d, hd, hA⟩ := hany
        exact ⟨d, hd, (isPrefixOf_eq_true _ _).mpr (isAllowedDir_within d _ hA)⟩
      · cases hr

/-- C1 (witness): a traversal-laden path resolving to `/home/etc/passwd`
    is rejected with the access-denied error. -/
theorem C1_amended_witness :
    resolveAndValidatePathIn ALLOWED_DIRS "data/../../etc/passwd" =
      .error (.accessDenied "data/../../etc/passwd") :=
  (C1_amended ALLOWED_DIRS "data/../../etc/passwd").1 (by decide) (by decide)

/-- C6 (counterexample to the claim as stated): `data/..foo` resolves to
    `/home/project/data/..foo`, a descendant of the allowed directory
    `/home/project/data`, and is non-whitespace, yet the validator rejects
    it with access denied, because the rendered relative path `..foo`
    starts with the two characters `..`. -/
theorem C6_counterexample :
    resolveAndValidatePath "data/..foo" = .error (.accessDenied "data/..foo") ∧
    (dirSegs "/home/project/data").isPrefixOf (resolveSegs "data/..foo") = true ∧
    allWhitespace "data/..foo".data = false := by
  refine ⟨rfl, by decide, by decide⟩

/-- C6 (amended): for every non-whitespace path whose lexical resolution
    equals an allowed directory or is a descendant of one whose first
    segment below that directory does not begin with the two characters
    `..`, validation succeeds and returns the resolved absolute path. A
    path equal to an allowed root itself is accepted (the remainder below
    the directory is then empty). -/
theorem C6_amended (dirs : List String) (p : String)
    (hws : allWhitespace p.data = false)
    (hd : ∃ d ∈ dirs, (dirSegs d).isPrefixOf (resolveSegs p) = true ∧
      headOk ((resolveSegs p).drop (dirSegs d).length) = true) :
    resolveAndValidatePathIn dirs p = .ok (joinAbs (resolveSegs p)) := by
  obtain ⟨d, hdm, hpre, hh⟩ := hd
  unfold resolveAndValidatePathIn
  rw [hws]
  have hany : dirs.any (fun d => isAllowedDir d (resolveSegs p)) = true :=
    List.any_eq_true.mpr ⟨d, hdm, isAllowedDir_of_within d p hpre hh⟩
  simp [hany]

/-- C6 (witness): a plain descendant of the allowed directory is accepted
    and the resolved absolute path is returned; the allowed root itself is
    accepted as well. -/
theorem C6_amended_witness :
    resolveAndValidatePathIn ALLOWED_DIRS "data/notes/file.txt" =
      .ok "/home/project/data/notes/file.txt" ∧
    resolveAndValidatePathIn ALLOWED_DIRS "data" = .ok "/home/project/data" := by
  constructor
  · exact C6_amended ALLOWED_DIRS "data/notes/file.txt" (by decide)
      ⟨"/home/project/data", by decide, by decide, by decide⟩
  · exact C6_amended ALLOWED_DIRS "data" (by decide)
      ⟨"/home/project/data", by decide, by decide, by decide⟩

/-! ## Helper lemmas about the edit engine -/

/-- JavaScript `includes` with the empty search string is always true. -/
theorem strIncludes_empty (s : String) : strIncludes s "" = true := by
  unfold strIncludes
  have hd : ("" : String).data = [] := rfl
  rw [hd]
  cases s.data with
  | nil => rfl
  | cons a l => simp [List.tails, List.isPrefixOf]

/-! ## Claim theorems: edit engine and tool handlers -/

/-- C3 (code bug, evaluated at the failing input): with original content
    `foo` and the single edit `foo -> baz`, the working content becomes
    `baz`, which differs from the original, yet `changesMade` stays false
    and no write happens even with `dryRun = false`, because the branch
    that sets the flag compares the working content with the same edit
    applied to the original content, and those always coincide on the first
    effective edit. -/
theorem C3_changed_flag_divergence :
    (runEditLoop "foo" [⟨"foo", "baz"⟩]).modifiedContent = "baz" ∧
    (runEditLoop "foo" [⟨"foo", "baz"⟩]).changesMade = false ∧
    ("baz" : String) ≠ "foo" ∧
    (editFileCore "/home/project/data/f.txt" "data/f.txt" "foo"
        [⟨"foo", "baz"⟩] false).written = none := by
  refine ⟨rfl, rfl, by decide, rfl⟩

/-- C4 (code bug, evaluated at the failing input): with content
    `foo bar foo` and the single edit `foo -> baz`, all occurrences are
    replaced leftmost-first giving `baz bar baz`, but the recorded info
    line is the removed-by-prior-edits note, not the applied line, and
    `changesMade` stays false, so the result would never be persisted. -/
theorem C4_outcome_divergence :
    (runEditLoop "foo bar foo" [⟨"foo", "baz"⟩]).modifiedContent = "baz bar baz" ∧
    (runEditLoop "foo bar foo" [⟨"foo", "baz"⟩]).appliedEditsInfo =
      [priorEditsMsg ⟨"foo", "baz"⟩] ∧
    priorEditsMsg ⟨"foo", "baz"⟩ ≠ replacedMsg ⟨"foo", "baz"⟩ ∧
    (runEditLoop "foo bar foo" [⟨"foo", "baz"⟩]).changesMade = false := by
  refine ⟨rfl, rfl, by decide, rfl⟩

/-- C5 (code bug, evaluated at the failing input): with content `foo` and
    edits `foo -> qux` then `foo -> zzz`, the first edit (which replaced
    text) records the removed-by-prior-edits note while the second edit
    (which replaced nothing) records the applied line and sets
    `changesMade`; the final content `qux` is then written. The outcomes
    are the reverse of the claimed ones. -/
theorem C5_outcome_swap :
    (runEditLoop "foo" [⟨"foo", "qux"⟩, ⟨"foo", "zzz"⟩]).modifiedContent = "qux" ∧
    (runEditLoop "foo" [⟨"foo", "qux"⟩, ⟨"foo", "zzz"⟩]).appliedEditsInfo =
      [priorEditsMsg ⟨"foo", "qux"⟩, replacedMsg ⟨"foo", "zzz"⟩] ∧
    (editFileCore "/home/project/data/f.txt" "data/f.txt" "foo"
        [⟨"foo", "qux"⟩, ⟨"foo", "zzz"⟩] false).written =
      some ("/home/project/data/f.txt", "qux") := by
  refine ⟨rfl, rfl, rfl⟩

/-- C7 (counterexample to the claim as stated): an edit with empty search
    text applied to content `ab` changes the working content to `XaXbX`
    (JavaScript `replaceAll` with an empty pattern inserts the replacement
    at every position boundary) and records no info line at all, instead of
    recording not-found and leaving the content unchanged. -/
theorem C7_counterexample :
    (runEditLoop "ab" [⟨"", "X"⟩]).modifiedContent = "XaXbX" ∧
    ("XaXbX" : String) ≠ "ab" ∧
    (runEditLoop "ab" [⟨"", "X"⟩]).appliedEditsInfo = [] := by
  refine ⟨rfl, by decide, rfl⟩

/-- C7 (amended): an edit with empty search text, applied while the working
    content still equals the original content, records no info line, leaves
    `changesMade` untouched, and sets the working content to the
    `replaceAll` result, which inserts the replacement text at every
    position boundary. -/
theorem C7_amended (original newText : String) (st : EditLoopState)
    (h : st.modifiedContent = original) :
    processEdit original st ⟨"", newText⟩ =
      ⟨strReplaceAll original "" newText, st.changesMade, st.appliedEditsInfo⟩ := by
  unfold processEdit
  rw [h]
  simp [strIncludes_empty]

/-- C7 (witness): the amended statement evaluated at content `ab` with
    replacement `X`. -/
theorem C7_amended_witness :
    processEdit "ab" ⟨"ab", false, []⟩ ⟨"", "X"⟩ =
      ⟨strReplaceAll "ab" "" "X", false, []⟩ :=
  C7_amended "ab" "X" ⟨"ab", false, []⟩ rfl

/-- C8 (dry-run purity): for every store, path and edit list, invoking
    `edit_file` with `dryRun = true` performs no write, and applying its
    (absent) write effect leaves every stored content unchanged. -/
theorem C8_dry_run_purity (store : String → Option String) (userPath : String)
    (edits : List EditOp) :
    (edit_file store userPath edits true).written = none ∧
    ∀ q, storeUpdate store (edit_file store userPath edits true).written q = store q := by
  have hw : (edit_file store userPath edits true).written = none := by
    unfold edit_file
    split
    · rfl
    · split
      · rfl
      · unfold editFileCore
        split
        · dsimp only
          split <;> rfl
        · next h => exact absurd rfl h
  refine ⟨hw, fun q => ?_⟩
  rw [hw]
  rfl

/-- C9 (per-path blocks, order and isolation): for every store and every
    decomposition of the requested path list around one path `p`, the block
    list is the blocks of the paths before `p`, then exactly one block for
    `p`, then the blocks of the paths after it — so each path contributes
    exactly one content-or-error block, in request order, and a validation
    or read failure for `p` (an error block) never disturbs the blocks of
    the other paths; the number of blocks always equals the number of
    requested paths. -/
theorem C9_read_multiple_files_per_path (store : String → Option String)
    (pre : List String) (p : String) (post : List String) :
    rmfBlocks store (pre ++ p :: post) =
      rmfBlocks store pre ++ rmfBlock store p :: rmfBlocks store post ∧
    (rmfBlocks store (pre ++ p :: post)).length = pre.length + 1 + post.length ∧
    read_multiple_files store (pre ++ p :: post) =
      String.intercalate "\n\n"
        (rmfBlocks store pre ++ rmfBlock store p :: rmfBlocks store post) := by
  refine ⟨by simp [rmfBlocks], ?_, by simp [read_multiple_files, rmfBlocks]⟩
  simp [rmfBlocks]
  omega

/-- C10 (empty edit list): for every store, path and dry-run flag,
    `edit_file` with no edits never writes, and after a successful read the
    response is the no-changes message of the corresponding branch. -/
theorem C10_empty_edits_no_write (store : String → Option String)
    (userPath fp up original : String) (dryRun : Bool) :
    (edit_file store userPath [] dryRun).written = none ∧
    (editFileCore fp up original [] dryRun).response =
      (if dryRun then
        "Dry run for '" ++ up ++
          "': No changes would be made based on the provided edits.\n\nApplied Edits Info:\n"
      else
        "No changes applied to '" ++ up ++
          "' as edits resulted in no modifications.\n\nApplied Edits Info:\n") := by
  constructor
  · unfold edit_file
    split
    · rfl
    · split
      · rfl
      · unfold editFileCore
        cases dryRun <;> rfl
  · unfold editFileCore
    cases dryRun <;> simp [runEditLoop, String.intercalate]

/-- C2 (code bug, evaluated at the failing input): the validator rejects
    `data/..` (it resolves to `/home/project`, outside every allowed
    directory), yet the `create_directory` handler's fallback validates
    `data/dummy` instead and then calls `fs.mkdir` on the unvalidated
    resolved path `/home/project` — a storage mutation at a path the
    validator rejected, lying outside every allowed directory. -/
theorem C2_create_directory_unvalidated_mkdir :
    resolveAndValidatePath "data/.." = .error (.accessDenied "data/..") ∧
    (create_directory "data/..").1 = some "/home/project" ∧
    withinAllowed (resolveSegs "data/..") = false := by
  refine ⟨rfl, rfl, by decide⟩
